import Mathlib

set_option autoImplicit false

/-!
Shallow embedding of `tools/bench/bench_report.py`: the two benchmark-log
parsers (`parse_go`, `parse_ts`), the numeric formatters (`fmt_int`,
`fmt_float`), and the table-assembly fragments of `main` that the verified
properties refer to.  Lines of text are modelled as `List Char`; Python dicts
with string keys are modelled as association lists; operations that can raise
in Python (dict indexing, list indexing) are modelled in `Option`.
-/

namespace BenchReport

abbrev LC := List Char

/-- ASCII whitespace, as recognised by Python's `str.strip`/`str.split`
and by `\s` in the record regex (the inputs in scope are ASCII). -/
def isSpace (c : Char) : Bool :=
  c = ' ' || c = '\t' || c = '\n' || c = '\r' || c = Char.ofNat 11 || c = Char.ofNat 12

/-- Python `str.strip()`: drop leading and trailing whitespace. -/
def pyStrip (l : LC) : LC :=
  ((l.dropWhile isSpace).reverse.dropWhile isSpace).reverse

/-- Accumulator for `pySplit`: current word (reversed) and the input. -/
def pySplitAux : LC → LC → List LC
  | acc, [] => if acc = [] then [] else [acc.reverse]
  | acc, c :: cs =>
    if isSpace c then
      if acc = [] then pySplitAux [] cs else acc.reverse :: pySplitAux [] cs
    else pySplitAux (c :: acc) cs

/-- Python `str.split()` with no argument: split on runs of whitespace,
discarding empty fields. -/
def pySplit (l : LC) : List LC := pySplitAux [] l

/-- `pat` occurs as a contiguous subsequence of `l` (Python `pat in l`). -/
def hasSub (pat : LC) : LC → Bool
  | [] => pat.isEmpty
  | c :: cs => pat.isPrefixOf (c :: cs) || hasSub pat cs

/-- ASCII digit, `\d` / `[0-9]` in the record regex. -/
def isDigit (c : Char) : Bool := '0' ≤ c && c ≤ '9'

/-- The class `[0-9.]` of the record regex. -/
def isNumDot (c : Char) : Bool := isDigit c || c = '.'

/-- `\S`: anything but whitespace. -/
def notSpace (c : Char) : Bool := !(isSpace c)

/-- Consume a maximal nonempty run of characters satisfying `p`; fail when the
first character does not satisfy `p`.  This is `p+` for a class `p` that is
disjoint from whatever the regex requires next, which is the case at every
use site in the record pattern, so no backtracking is lost. -/
def run1 (p : Char → Bool) (l : LC) : Option (LC × LC) :=
  match l.takeWhile p with
  | [] => none
  | r => some (r, l.dropWhile p)

/-- Consume an exact literal. -/
def expectLit (lit l : LC) : Option LC :=
  if lit.isPrefixOf l then some (l.drop lit.length) else none

/-- A parsed native-benchmark record: the four captured strings of the
`bench_re` pattern in `parse_go` (`name`, `ns_op`, `b_op`, `allocs`). -/
structure GoRec where
  name : LC
  ns_op : LC
  b_op : LC
  allocs : LC
  deriving DecidableEq, Repr

/-- `bench_re.match(line)` of `parse_go`, for the pattern
`^(Benchmark\S+)\s+\d+\s+([0-9.]+) ns\x2fop\s+([0-9.]+) B\x2fop\s+(\d+) allocs\x2fop$`.
Every greedy piece (`\S+`, `\d+`, `[0-9.]+`, `\s+`) is followed by a character
it can never match (whitespace after a non-space class, a non-space character
after `\s+`, a space after `[0-9.]+`/`\d+`), so the regex is deterministic and
this left-to-right scanner computes exactly its match. -/
def benchMatch (l : LC) : Option GoRec := do
  let l ← expectLit "Benchmark".data l
  let (nm, l) ← run1 notSpace l
  let (_, l) ← run1 isSpace l
  let (_, l) ← run1 isDigit l
  let (_, l) ← run1 isSpace l
  let (ns, l) ← run1 isNumDot l
  let l ← expectLit " ns/op".data l
  let (_, l) ← run1 isSpace l
  let (bo, l) ← run1 isNumDot l
  let l ← expectLit " B/op".data l
  let (_, l) ← run1 isSpace l
  let (al, l) ← run1 isDigit l
  let l ← expectLit " allocs/op".data l
  if l = [] then some ⟨"Benchmark".data ++ nm, ns, bo, al⟩ else none

/-- Association-list model of a Python dict whose values are record lists. -/
abbrev Dict (α : Type) := List (LC × List α)

/-- The keys of a dict, in insertion order. -/
def keysOf {α : Type} (d : Dict α) : List LC := d.map Prod.fst

/-- Python `d[k]` as a lookup that can fail (KeyError). -/
def alookup {β : Type} (k : LC) : List (LC × β) → Option β
  | [] => none
  | (k', v) :: r => if k = k' then some v else alookup k r

/-- Python `d.get(k, dflt)`: lookup with a default, never raising. -/
def dget {β : Type} (k : LC) (d : List (LC × β)) (dflt : β) : β :=
  (alookup k d).getD dflt

/-- Python `d[k].append(v)`: fails (KeyError) when `k` is absent, otherwise
appends in place, leaving keys and every other bucket unchanged. -/
def dictApp {α : Type} (k : LC) (v : α) : Dict α → Option (Dict α)
  | [] => none
  | (k', vs) :: r =>
    if k = k' then some ((k', vs ++ [v]) :: r)
    else (dictApp k v r).map ((k', vs) :: ·)

/-- `out = {"e2ee": [], "tunnel": []}` of `parse_go`. -/
def goInit : Dict GoRec := [("e2ee".data, []), ("tunnel".data, [])]

/-- One iteration of the `for line in f` loop of `parse_go`, acting on the
state (current package `pkg`, bucket dict `d`). -/
def goLineStep (pkg : LC) (d : Dict GoRec) (line : LC) : Option (LC × Dict GoRec) :=
  let s := pyStrip line
  if ("pkg:".data).isPrefixOf s then
    let ps := pySplit s
    if 2 ≤ ps.length then
      match ps[1]? with
      | some p => some (p, d)
      | none => none
    else some (pkg, d)
  else
    match benchMatch s with
    | none => some (pkg, d)
    | some r =>
      if ("/crypto/e2ee".data).isSuffixOf pkg then
        (dictApp "e2ee".data r d).map (fun d' => (pkg, d'))
      else if ("/tunnel/server".data).isSuffixOf pkg then
        (dictApp "tunnel".data r d).map (fun d' => (pkg, d'))
      else some (pkg, d)

/-- The loop of `parse_go`, from an arbitrary state. -/
def parseGoFrom (pkg : LC) (d : Dict GoRec) : List LC → Option (Dict GoRec)
  | [] => some d
  | l :: ls =>
    match goLineStep pkg d l with
    | none => none
    | some (pkg', d') => parseGoFrom pkg' d' ls

/-- `parse_go`: the input file as a list of lines, the result as the bucket
dict (`None` only if a modelled-fallible operation were to fail). -/
def parseGo (lines : List LC) : Option (Dict GoRec) :=
  parseGoFrom [] goInit lines

/-- A parsed script-benchmark record: the three captured strings of a bullet
row in `parse_ts` (`name`, `hz`, `mean_ms`). -/
structure TsRec where
  name : LC
  hz : LC
  mean_ms : LC
  deriving DecidableEq, Repr

/-- `out = {"handshake": [], "record": [], "yamux": []}` of `parse_ts`. -/
def tsInit : Dict TsRec := [("handshake".data, []), ("record".data, []), ("yamux".data, [])]

/-- The three section-marker tests of `parse_ts`, run in source order on the
raw (untrimmed) line; the first one that occurs as a substring wins. -/
def tsMarker (line : LC) : Option LC :=
  if hasSub "> e2ee handshake".data line then some "handshake".data
  else if hasSub "> e2ee record".data line then some "record".data
  else if hasSub "> yamux".data line then some "yamux".data
  else none

/-- One iteration of the `for line in f` loop of `parse_ts`, acting on the
state (current section `sec`, bucket dict `d`).  Python tests
`not line.startswith("·") or section is None` in that order; both failing
conjuncts just `continue`, so testing the section first is equivalent. -/
def tsLineStep (sec : Option LC) (d : Dict TsRec) (line : LC) :
    Option (Option LC × Dict TsRec) :=
  match tsMarker line with
  | some m => some (some m, d)
  | none =>
    let s := pyStrip line
    match sec with
    | none => some (none, d)
    | some sb =>
      if ("·".data).isPrefixOf s then
        let ps := pySplit (s.filter (fun c => c ≠ '·'))
        if ps.length < 5 then some (sec, d)
        else
          match ps[0]?, ps[1]?, ps[4]? with
          | some nm, some hz, some mn =>
            (dictApp sb ⟨nm, hz, mn⟩ d).map (fun d' => (sec, d'))
          | _, _, _ => none
      else some (sec, d)

/-- The loop of `parse_ts`, from an arbitrary state. -/
def parseTsFrom (sec : Option LC) (d : Dict TsRec) : List LC → Option (Dict TsRec)
  | [] => some d
  | l :: ls =>
    match tsLineStep sec d l with
    | none => none
    | some (sec', d') => parseTsFrom sec' d' ls

/-- `parse_ts`: the input file as a list of lines (`section = None` initially). -/
def parseTs (lines : List LC) : Option (Dict TsRec) :=
  parseTsFrom none tsInit lines

/-- The record a single non-marker line of `parse_ts` yields (independent of
which section is current): strip, require the bullet prefix, drop every
bullet character, split, require at least five fields, take fields 0, 1, 4. -/
def tsRowParse (line : LC) : Option TsRec :=
  let s := pyStrip line
  if ("·".data).isPrefixOf s then
    let ps := pySplit (s.filter (fun c => c ≠ '·'))
    if ps.length < 5 then none
    else
      match ps[0]?, ps[1]?, ps[4]? with
      | some nm, some hz, some mn => some ⟨nm, hz, mn⟩
      | _, _, _ => none
  else none

/-- Routing of a matched native record by the current package's suffix:
`/crypto/e2ee` selects the e2ee bucket, `/tunnel/server` the tunnel bucket,
anything else no bucket. -/
def routeOf (pkg : LC) : Option LC :=
  if ("/crypto/e2ee".data).isSuffixOf pkg then some "e2ee".data
  else if ("/tunnel/server".data).isSuffixOf pkg then some "tunnel".data
  else none

/-- Specification of one native bucket, following the spec's words: scan the
lines in order maintaining the current package; every line matching the
record pattern contributes its record to bucket `b` exactly when the current
package routes to `b`, in encounter order. -/
def goBucketSpec (b : LC) : LC → List LC → List GoRec
  | _, [] => []
  | pkg, l :: ls =>
    let s := pyStrip l
    if ("pkg:".data).isPrefixOf s then
      let ps := pySplit s
      goBucketSpec b (if 2 ≤ ps.length then ps.getD 1 pkg else pkg) ls
    else
      match benchMatch s with
      | none => goBucketSpec b pkg ls
      | some r => (if routeOf pkg = some b then [r] else []) ++ goBucketSpec b pkg ls

/-- The contribution of one line to script bucket `b` when the current
section is `sec`: nothing for a marker line or while no section is set,
otherwise the line's bullet row (if any) when the current section is `b`. -/
def tsContrib (b : LC) (sec : Option LC) (l : LC) : List TsRec :=
  match tsMarker l with
  | some _ => []
  | none =>
    match sec with
    | none => []
    | some sb => if sb = b then (tsRowParse l).toList else []

/-- The current section after one line: a marker line switches to its
section, any other line leaves it unchanged. -/
def tsNextSec (sec : Option LC) (l : LC) : Option LC :=
  match tsMarker l with
  | some m => some m
  | none => sec

/-- Specification of one script bucket, following the spec's words: scan the
lines in order maintaining the current section; a marker line switches the
section and contributes nothing; a bullet row contributes its record to the
currently-set section's bucket, in encounter order; rows seen while no
section is set contribute nothing. -/
def tsBucketSpec (b : LC) : Option LC → List LC → List TsRec
  | _, [] => []
  | sec, l :: ls => tsContrib b sec l ++ tsBucketSpec b (tsNextSec sec l) ls

/-- One data row of the native-benchmark tables of `main`: the four captured
strings of the record interpolated verbatim between pipe separators. -/
def goRow (r : GoRec) : LC :=
  "| ".data ++ r.name ++ " | ".data ++ r.ns_op ++ " | ".data ++ r.b_op
    ++ " | ".data ++ r.allocs ++ " |".data

/-- One data row of the script-benchmark tables of `main`. -/
def tsRow (r : TsRec) : LC :=
  "| ".data ++ r.name ++ " | ".data ++ r.hz ++ " | ".data ++ r.mean_ms ++ " |".data

/-- The data rows of one native table (`go_bench[k]` comprehension in `main`). -/
def goTableRows (d : Dict GoRec) (k : LC) : Option (List LC) :=
  (alookup k d).map (List.map goRow)

/-- The data rows of one script table (`ts_bench[k]` comprehension in `main`). -/
def tsTableRows (d : Dict TsRec) (k : LC) : Option (List LC) :=
  (alookup k d).map (List.map tsRow)

/-- Interleave a separator between strings. -/
def joinSep (sep : LC) : List LC → LC
  | [] => []
  | [c] => c
  | c :: cs => c ++ sep ++ joinSep sep cs

/-- A markdown table row holding the given cell strings verbatim. -/
def rowOfCells (cells : List LC) : LC :=
  "| ".data ++ joinSep " | ".data cells ++ " |".data

/-- Python `str` of an integer. -/
def intStr (n : Int) : LC := (toString n).data

/-- Insert a comma after every three characters; the input is the reversed
digit string, so this is the digit grouping of Python's `,` format spec. -/
def commaRev : LC → LC
  | [] => []
  | [a] => [a]
  | [a, b] => [a, b]
  | [a, b, c] => [a, b, c]
  | a :: b :: c :: rest => a :: b :: c :: ',' :: commaRev rest

/-- `fmt_int` on an integer value (there Python's `int(v)` is the identity):
decimal digits grouped in threes by commas, with a leading minus sign. -/
def fmtInt (n : Int) : LC :=
  (if n < 0 then ['-'] else []) ++ (commaRev (intStr n.natAbs).reverse).reverse

/-- `fmt_float` on an integer value `v` (conversion `float(v)` is exact for
the magnitudes in scope): the decimal string of `v` followed by a point and
`places` zeros. -/
def fmtFloat (v : Int) (places : Nat) : LC :=
  intStr v ++ '.' :: List.replicate places '0'

/-- A flat load-generator sub-document, restricted to integer leaves. -/
abbrev SubDoc := List (LC × Int)

/-- The summary table of `main`: `attempts`, `success`, `failure`,
`success_rate`, `peak_conn_per_sec` and `active_peak` are interpolated
directly (Python `str`), only `duration_seconds` goes through
`fmt_float(..., 4)`; each key defaults to `0`. -/
def summaryRows (s : SubDoc) : List LC :=
  [ "| attempts | ".data ++ intStr (dget "attempts".data s 0) ++ " |".data,
    "| success | ".data ++ intStr (dget "success".data s 0) ++ " |".data,
    "| failure | ".data ++ intStr (dget "failure".data s 0) ++ " |".data,
    "| success_rate | ".data ++ intStr (dget "success_rate".data s 0) ++ " |".data,
    "| duration_seconds | ".data ++ fmtFloat (dget "duration_seconds".data s 0) 4 ++ " |".data,
    "| peak_conn_per_sec | ".data ++ intStr (dget "peak_conn_per_sec".data s 0) ++ " |".data,
    "| active_peak | ".data ++ intStr (dget "active_peak".data s 0) ++ " |".data ]

/-- The resources table of `main`: all four counters go through `fmt_int`,
each defaulting to `0`. -/
def resourcesRows (r : SubDoc) : List LC :=
  [ "| max_heap_alloc_bytes | ".data ++ fmtInt (dget "max_heap_alloc_bytes".data r 0) ++ " |".data,
    "| max_heap_inuse_bytes | ".data ++ fmtInt (dget "max_heap_inuse_bytes".data r 0) ++ " |".data,
    "| max_sys_bytes | ".data ++ fmtInt (dget "max_sys_bytes".data r 0) ++ " |".data,
    "| max_goroutines | ".data ++ fmtInt (dget "max_goroutines".data r 0) ++ " |".data ]

/-- The five fixed pipeline stages of the latency table of `main`. -/
def latencyStages : List LC :=
  ["ws_open".data, "attach_send".data, "pair_ready".data, "handshake".data, "rpc_call".data]

/-- One row of the latency table of `main`: six statistics of the stage's
sub-document, each through `fmt_float(..., 6)` with default `0`. -/
def latencyRow (stage : LC) (item : SubDoc) : LC :=
  "| ".data ++ stage
    ++ " | ".data ++ fmtFloat (dget "p50_ms".data item 0) 6
    ++ " | ".data ++ fmtFloat (dget "p95_ms".data item 0) 6
    ++ " | ".data ++ fmtFloat (dget "p99_ms".data item 0) 6
    ++ " | ".data ++ fmtFloat (dget "mean_ms".data item 0) 6
    ++ " | ".data ++ fmtFloat (dget "min_ms".data item 0) 6
    ++ " | ".data ++ fmtFloat (dget "max_ms".data item 0) 6
    ++ " |".data

/-- The latency table of `main`: one row per fixed stage, each stage's
sub-document looked up with default empty. -/
def latencyRows (lat : List (LC × SubDoc)) : List LC :=
  latencyStages.map (fun st => latencyRow st (dget st lat []))

/-- `loadgen.get("resources", ...)` of `main` with its empty-dict default, on
the model of the load-generator document as a map to flat sub-documents. -/
def lgResources (lg : List (LC × SubDoc)) : SubDoc :=
  dget "resources".data lg []

/-! Helper lemmas about the dict model. -/

theorem dictApp_spec {α : Type} (k : LC) (v : α) :
    ∀ d : Dict α, k ∈ keysOf d →
      ∃ d', dictApp k v d = some d' ∧ keysOf d' = keysOf d ∧
        ∀ b, dget b d' [] = dget b d [] ++ (if b = k then [v] else []) := by
  intro d
  induction d with
  | nil => intro h; simp [keysOf] at h
  | cons e r ih =>
    obtain ⟨k', vs⟩ := e
    intro h
    by_cases hk : k = k'
    · subst hk
      refine ⟨(k, vs ++ [v]) :: r, by simp [dictApp], rfl, ?_⟩
      intro b
      by_cases hb : b = k
      · subst hb; simp [dget, alookup]
      · simp [dget, alookup, hb]
    · have hmem : k ∈ keysOf r := by
        simp only [keysOf, List.map_cons, List.mem_cons] at h
        rcases h with h | h
        · exact absurd h hk
        · exact h
      obtain ⟨d', hd, hkeys, hb⟩ := ih hmem
      refine ⟨(k', vs) :: d', ?_, ?_, ?_⟩
      · simp [dictApp, hk, hd]
      · simp only [keysOf, List.map_cons]
        rw [show (d'.map Prod.fst) = keysOf d' from rfl, hkeys]
        rfl
      · intro b
        by_cases hbk : b = k'
        · subst hbk
          have hk' : ¬ (b = k) := fun hh => hk hh.symm
          simp [dget, alookup, hk']
        · have h1 : dget b ((k', vs) :: d') [] = dget b d' [] := by
            simp [dget, alookup, hbk]
          have h2 : dget b ((k', vs) :: r) [] = dget b r [] := by
            simp [dget, alookup, hbk]
          rw [h1, h2, hb b]

theorem alookup_eq_dget {α : Type} (k : LC) :
    ∀ d : Dict α, k ∈ keysOf d → alookup k d = some (dget k d []) := by
  intro d
  induction d with
  | nil => intro h; simp [keysOf] at h
  | cons e r ih =>
    obtain ⟨k', vs⟩ := e
    intro h
    by_cases hk : k = k'
    · subst hk; simp [alookup, dget]
    · have hmem : k ∈ keysOf r := by
        simp only [keysOf, List.map_cons, List.mem_cons] at h
        rcases h with h | h
        · exact absurd h hk
        · exact h
      rw [show alookup k ((k', vs) :: r) = alookup k r from by simp [alookup, hk],
          show dget k ((k', vs) :: r) [] = dget k r [] from by simp [dget, alookup, hk]]
      exact ih hmem

/-! Refinement of `parse_go` against its per-bucket specification. -/

theorem parseGoFrom_step (pkg pkg' : LC) (d d' : Dict GoRec) (l : LC) (ls : List LC)
    (h : goLineStep pkg d l = some (pkg', d')) :
    parseGoFrom pkg d (l :: ls) = parseGoFrom pkg' d' ls := by
  rw [parseGoFrom, h]

theorem goBucketSpec_cons (b pkg : LC) (l : LC) (ls : List LC) :
    goBucketSpec b pkg (l :: ls) =
      (if ("pkg:".data).isPrefixOf (pyStrip l) then
        goBucketSpec b
          (if 2 ≤ (pySplit (pyStrip l)).length then (pySplit (pyStrip l)).getD 1 pkg else pkg) ls
      else
        match benchMatch (pyStrip l) with
        | none => goBucketSpec b pkg ls
        | some r => (if routeOf pkg = some b then [r] else []) ++ goBucketSpec b pkg ls) := by
  rw [goBucketSpec]

theorem parseGoFrom_spec :
    ∀ (ls : List LC) (pkg : LC) (d : Dict GoRec),
      "e2ee".data ∈ keysOf d → "tunnel".data ∈ keysOf d →
      ∃ d', parseGoFrom pkg d ls = some d' ∧ keysOf d' = keysOf d ∧
        ∀ b, dget b d' [] = dget b d [] ++ goBucketSpec b pkg ls := by
  intro ls
  induction ls with
  | nil =>
    intro pkg d h1 h2
    exact ⟨d, rfl, rfl, fun b => by simp [goBucketSpec]⟩
  | cons l ls ih =>
    intro pkg d h1 h2
    by_cases hp : ("pkg:".data).isPrefixOf (pyStrip l) = true
    · by_cases hlen : 2 ≤ (pySplit (pyStrip l)).length
      · have h1lt : 1 < (pySplit (pyStrip l)).length := by omega
        have hget : (pySplit (pyStrip l))[1]? = some ((pySplit (pyStrip l))[1]) :=
          List.getElem?_eq_getElem h1lt
        have hgetD : (pySplit (pyStrip l)).getD 1 pkg = (pySplit (pyStrip l))[1] := by
          rw [List.getD_eq_getElem?_getD, hget]
          rfl
        obtain ⟨d', hrun, hkeys, hb⟩ := ih ((pySplit (pyStrip l))[1]) d h1 h2
        refine ⟨d', ?_, hkeys, ?_⟩
        · have hstep : goLineStep pkg d l = some ((pySplit (pyStrip l))[1], d) := by
            simp [goLineStep, hp, hlen]
            rw [hget]
          rw [parseGoFrom_step pkg ((pySplit (pyStrip l))[1]) d d l ls hstep]
          exact hrun
        · intro b
          rw [hb b]
          congr 1
          rw [goBucketSpec_cons]
          simp [hp, hlen, hget]
      · obtain ⟨d', hrun, hkeys, hb⟩ := ih pkg d h1 h2
        refine ⟨d', ?_, hkeys, ?_⟩
        · rw [parseGoFrom_step pkg pkg d d l ls (by simp [goLineStep, hp, hlen])]
          exact hrun
        · intro b
          rw [hb b]
          congr 1
          rw [goBucketSpec_cons]
          simp [hp, hlen]
    · cases hbm : benchMatch (pyStrip l) with
      | none =>
        obtain ⟨d', hrun, hkeys, hb⟩ := ih pkg d h1 h2
        refine ⟨d', ?_, hkeys, ?_⟩
        · rw [parseGoFrom_step pkg pkg d d l ls (by simp [goLineStep, hp, hbm])]
          exact hrun
        · intro b
          rw [hb b]
          congr 1
          rw [goBucketSpec_cons]
          simp [hp, hbm]
      | some r =>
        by_cases he : ("/crypto/e2ee".data).isSuffixOf pkg = true
        · obtain ⟨d₁, hda, hkeys₁, hb₁⟩ := dictApp_spec "e2ee".data r d h1
          obtain ⟨d', hrun, hkeys, hb⟩ := ih pkg d₁ (hkeys₁ ▸ h1) (hkeys₁ ▸ h2)
          refine ⟨d', ?_, hkeys.trans hkeys₁, ?_⟩
          · rw [parseGoFrom_step pkg pkg d d₁ l ls (by simp [goLineStep, hp, hbm, he, hda])]
            exact hrun
          · intro b
            have hroute : routeOf pkg = some "e2ee".data := by simp [routeOf, he]
            rw [hb b, hb₁ b, goBucketSpec_cons]
            simp only [hp, if_false, Bool.false_eq_true, hbm]
            by_cases hbe : b = "e2ee".data
            · subst hbe; simp [hroute, List.append_assoc]
            · have hne : ¬ (routeOf pkg = some b) := by
                rw [hroute]
                intro hc
                exact hbe (Option.some.inj hc).symm
              simp [hbe, hne]
        · by_cases ht : ("/tunnel/server".data).isSuffixOf pkg = true
          · obtain ⟨d₁, hda, hkeys₁, hb₁⟩ := dictApp_spec "tunnel".data r d h2
            obtain ⟨d', hrun, hkeys, hb⟩ := ih pkg d₁ (hkeys₁ ▸ h1) (hkeys₁ ▸ h2)
            refine ⟨d', ?_, hkeys.trans hkeys₁, ?_⟩
            · rw [parseGoFrom_step pkg pkg d d₁ l ls (by simp [goLineStep, hp, hbm, he, ht, hda])]
              exact hrun
            · intro b
              have hroute : routeOf pkg = some "tunnel".data := by simp [routeOf, he, ht]
              rw [hb b, hb₁ b, goBucketSpec_cons]
              simp only [hp, if_false, Bool.false_eq_true, hbm]
              by_cases hbt : b = "tunnel".data
              · subst hbt; simp [hroute, List.append_assoc]
              · have hne : ¬ (routeOf pkg = some b) := by
                  rw [hroute]
                  intro hc
                  exact hbt (Option.some.inj hc).symm
                simp [hbt, hne]
          · have hroute : routeOf pkg = none := by simp [routeOf, he, ht]
            obtain ⟨d', hrun, hkeys, hb⟩ := ih pkg d h1 h2
            refine ⟨d', ?_, hkeys, ?_⟩
            · rw [parseGoFrom_step pkg pkg d d l ls (by simp [goLineStep, hp, hbm, he, ht])]
              exact hrun
            · intro b
              rw [hb b]
              congr 1
              rw [goBucketSpec_cons]
              simp [hp, hbm, hroute]

/-! Refinement of `parse_ts` against its per-bucket specification. -/

theorem parseTsFrom_step (sec sec' : Option LC) (d d' : Dict TsRec) (l : LC) (ls : List LC)
    (h : tsLineStep sec d l = some (sec', d')) :
    parseTsFrom sec d (l :: ls) = parseTsFrom sec' d' ls := by
  rw [parseTsFrom, h]

theorem tsBucketSpec_marker (b m : LC) (sec : Option LC) (l : LC) (ls : List LC)
    (h : tsMarker l = some m) :
    tsBucketSpec b sec (l :: ls) = tsBucketSpec b (some m) ls := by
  rw [tsBucketSpec]
  simp [tsContrib, tsNextSec, h]

theorem tsBucketSpec_nosec (b : LC) (l : LC) (ls : List LC) (h : tsMarker l = none) :
    tsBucketSpec b none (l :: ls) = tsBucketSpec b none ls := by
  rw [tsBucketSpec]
  simp [tsContrib, tsNextSec, h]

theorem tsBucketSpec_row (b sb : LC) (l : LC) (ls : List LC) (h : tsMarker l = none) :
    tsBucketSpec b (some sb) (l :: ls) =
      (if sb = b then (tsRowParse l).toList else []) ++ tsBucketSpec b (some sb) ls := by
  rw [tsBucketSpec]
  simp [tsContrib, tsNextSec, h]

theorem tsMarker_mem (l m : LC) (h : tsMarker l = some m) :
    m = "handshake".data ∨ m = "record".data ∨ m = "yamux".data := by
  unfold tsMarker at h
  split at h
  · exact Or.inl (Option.some.inj h).symm
  · split at h
    · exact Or.inr (Or.inl (Option.some.inj h).symm)
    · split at h
      · exact Or.inr (Or.inr (Option.some.inj h).symm)
      · exact absurd h (by simp)

theorem tsLineStep_row (sb : LC) (d : Dict TsRec) (l : LC)
    (hm : tsMarker l = none)
    (hbul : ("·".data).isPrefixOf (pyStrip l) = true)
    (hlen : ¬ (pySplit ((pyStrip l).filter (fun c => c ≠ '·'))).length < 5) :
    ∃ rec, tsRowParse l = some rec ∧
      tsLineStep (some sb) d l = (dictApp sb rec d).map (fun d' => (some sb, d')) := by
  have hl0 : 0 < (pySplit ((pyStrip l).filter (fun c => c ≠ '·'))).length := by omega
  have hl1 : 1 < (pySplit ((pyStrip l).filter (fun c => c ≠ '·'))).length := by omega
  have hl4 : 4 < (pySplit ((pyStrip l).filter (fun c => c ≠ '·'))).length := by omega
  have hg0 := List.getElem?_eq_getElem hl0
  have hg1 := List.getElem?_eq_getElem hl1
  have hg4 := List.getElem?_eq_getElem hl4
  refine ⟨⟨(pySplit ((pyStrip l).filter (fun c => c ≠ '·'))).get ⟨0, hl0⟩,
          (pySplit ((pyStrip l).filter (fun c => c ≠ '·'))).get ⟨1, hl1⟩,
          (pySplit ((pyStrip l).filter (fun c => c ≠ '·'))).get ⟨4, hl4⟩⟩, ?_, ?_⟩
  · simp only [tsRowParse]
    rw [if_pos hbul, if_neg hlen, hg0, hg1, hg4]
    rfl
  · simp only [tsLineStep, hm]
    rw [if_pos hbul, if_neg hlen, hg0, hg1, hg4]
    rfl

theorem parseTsFrom_spec :
    ∀ (ls : List LC) (sec : Option LC) (d : Dict TsRec),
      "handshake".data ∈ keysOf d → "record".data ∈ keysOf d → "yamux".data ∈ keysOf d →
      (∀ sb, sec = some sb → sb ∈ keysOf d) →
      ∃ d', parseTsFrom sec d ls = some d' ∧ keysOf d' = keysOf d ∧
        ∀ b, dget b d' [] = dget b d [] ++ tsBucketSpec b sec ls := by
  intro ls
  induction ls with
  | nil =>
    intro sec d h1 h2 h3 hs
    exact ⟨d, rfl, rfl, fun b => by simp [tsBucketSpec]⟩
  | cons l ls ih =>
    intro sec d h1 h2 h3 hs
    cases hm : tsMarker l with
    | some m =>
      have hmk : m ∈ keysOf d := by
        rcases tsMarker_mem l m hm with h | h | h <;> (subst h; assumption)
      obtain ⟨d', hrun, hkeys, hb⟩ :=
        ih (some m) d h1 h2 h3 (fun sb hsb => (Option.some.inj hsb) ▸ hmk)
      refine ⟨d', ?_, hkeys, ?_⟩
      · rw [parseTsFrom_step sec (some m) d d l ls (by simp [tsLineStep, hm])]
        exact hrun
      · intro b
        rw [hb b]
        congr 1
        rw [tsBucketSpec_marker b m sec l ls hm]
    | none =>
      cases sec with
      | none =>
        obtain ⟨d', hrun, hkeys, hb⟩ :=
          ih none d h1 h2 h3 (fun sb hsb => Option.noConfusion hsb)
        refine ⟨d', ?_, hkeys, ?_⟩
        · rw [parseTsFrom_step none none d d l ls (by simp [tsLineStep, hm])]
          exact hrun
        · intro b
          rw [hb b]
          congr 1
          rw [tsBucketSpec_nosec b l ls hm]
      | some sb =>
        have hsbk : sb ∈ keysOf d := hs sb rfl
        by_cases hbul : ("·".data).isPrefixOf (pyStrip l) = true
        · by_cases hlen : (pySplit ((pyStrip l).filter (fun c => c ≠ '·'))).length < 5
          · have hrow : tsRowParse l = none := by
              simp only [tsRowParse]
              rw [if_pos hbul, if_pos hlen]
            obtain ⟨d', hrun, hkeys, hb⟩ := ih (some sb) d h1 h2 h3 hs
            refine ⟨d', ?_, hkeys, ?_⟩
            · rw [parseTsFrom_step (some sb) (some sb) d d l ls
                (by simp only [tsLineStep, hm]; rw [if_pos hbul, if_pos hlen])]
              exact hrun
            · intro b
              rw [hb b]
              congr 1
              rw [tsBucketSpec_row b sb l ls hm]
              simp [hrow]
          · obtain ⟨rec, hrow, hstep⟩ := tsLineStep_row sb d l hm hbul hlen
            obtain ⟨d₁, hda, hkeys₁, hb₁⟩ := dictApp_spec sb rec d hsbk
            obtain ⟨d', hrun, hkeys, hb⟩ :=
              ih (some sb) d₁ (hkeys₁ ▸ h1) (hkeys₁ ▸ h2) (hkeys₁ ▸ h3)
                (fun sb' hsb' => hkeys₁ ▸ hs sb' hsb')
            refine ⟨d', ?_, hkeys.trans hkeys₁, ?_⟩
            · rw [parseTsFrom_step (some sb) (some sb) d d₁ l ls (by rw [hstep, hda]; rfl)]
              exact hrun
            · intro b
              rw [hb b, hb₁ b, tsBucketSpec_row b sb l ls hm, hrow]
              by_cases hbe : sb = b
              · subst hbe
                simp [List.append_assoc]
              · have hbe' : ¬ (b = sb) := fun hh => hbe hh.symm
                simp [hbe, hbe']
        · have hrow : tsRowParse l = none := by simp [tsRowParse, hbul]
          obtain ⟨d', hrun, hkeys, hb⟩ := ih (some sb) d h1 h2 h3 hs
          refine ⟨d', ?_, hkeys, ?_⟩
          · rw [parseTsFrom_step (some sb) (some sb) d d l ls
              (by simp [tsLineStep, hm, hbul])]
            exact hrun
          · intro b
            rw [hb b]
            congr 1
            rw [tsBucketSpec_row b sb l ls hm]
            simp [hrow]


/-! Packaging: full-parse specifications from the initial state. -/

theorem dget_goInit (b : LC) : dget b goInit [] = [] := by
  by_cases h1 : b = "e2ee".data
  · subst h1; decide
  · by_cases h2 : b = "tunnel".data
    · subst h2; decide
    · simp [dget, alookup, goInit, h1, h2]

theorem dget_tsInit (b : LC) : dget b tsInit [] = [] := by
  by_cases h1 : b = "handshake".data
  · subst h1; decide
  · by_cases h2 : b = "record".data
    · subst h2; decide
    · by_cases h3 : b = "yamux".data
      · subst h3; decide
      · simp [dget, alookup, tsInit, h1, h2, h3]

theorem parseGo_spec (lines : List LC) :
    ∃ d, parseGo lines = some d ∧ keysOf d = ["e2ee".data, "tunnel".data] ∧
      ∀ b, dget b d [] = goBucketSpec b [] lines := by
  obtain ⟨d, hrun, hkeys, hb⟩ := parseGoFrom_spec lines [] goInit (by decide) (by decide)
  exact ⟨d, hrun, by rw [hkeys]; rfl, fun b => by rw [hb b, dget_goInit]; rfl⟩

theorem parseTs_spec (lines : List LC) :
    ∃ d, parseTs lines = some d ∧
      keysOf d = ["handshake".data, "record".data, "yamux".data] ∧
      ∀ b, dget b d [] = tsBucketSpec b none lines := by
  obtain ⟨d, hrun, hkeys, hb⟩ := parseTsFrom_spec lines none tsInit
    (by decide) (by decide) (by decide) (fun sb hsb => Option.noConfusion hsb)
  exact ⟨d, hrun, by rw [hkeys]; rfl, fun b => by rw [hb b, dget_tsInit]; rfl⟩

/-! Every record in a bucket originates from a matching input line. -/

theorem goBucketSpec_src :
    ∀ (ls : List LC) (b pkg : LC) (r : GoRec), r ∈ goBucketSpec b pkg ls →
      ∃ l, l ∈ ls ∧ benchMatch (pyStrip l) = some r := by
  intro ls
  induction ls with
  | nil => intro b pkg r h; simp [goBucketSpec] at h
  | cons l ls ih =>
    intro b pkg r h
    rw [goBucketSpec_cons] at h
    by_cases hp : ("pkg:".data).isPrefixOf (pyStrip l) = true
    · rw [if_pos hp] at h
      obtain ⟨l', hl', hmm⟩ := ih b _ r h
      exact ⟨l', List.mem_cons_of_mem _ hl', hmm⟩
    · rw [if_neg hp] at h
      cases hbm : benchMatch (pyStrip l) with
      | none =>
        simp only [hbm] at h
        obtain ⟨l', hl', hmm⟩ := ih b pkg r h
        exact ⟨l', List.mem_cons_of_mem _ hl', hmm⟩
      | some r' =>
        simp only [hbm] at h
        rcases List.mem_append.mp h with h | h
        · by_cases hr : routeOf pkg = some b
          · rw [if_pos hr] at h
            simp at h
            subst h
            exact ⟨l, List.mem_cons_self _ _, hbm⟩
          · rw [if_neg hr] at h
            simp at h
        · obtain ⟨l', hl', hmm⟩ := ih b pkg r h
          exact ⟨l', List.mem_cons_of_mem _ hl', hmm⟩

theorem tsBucketSpec_src :
    ∀ (ls : List LC) (b : LC) (sec : Option LC) (r : TsRec), r ∈ tsBucketSpec b sec ls →
      ∃ l, l ∈ ls ∧ tsMarker l = none ∧ tsRowParse l = some r := by
  intro ls
  induction ls with
  | nil => intro b sec r h; simp [tsBucketSpec] at h
  | cons l ls ih =>
    intro b sec r h
    cases hm : tsMarker l with
    | some m =>
      rw [tsBucketSpec_marker b m sec l ls hm] at h
      obtain ⟨l', hl', hx1, hx2⟩ := ih b (some m) r h
      exact ⟨l', List.mem_cons_of_mem _ hl', hx1, hx2⟩
    | none =>
      cases sec with
      | none =>
        rw [tsBucketSpec_nosec b l ls hm] at h
        obtain ⟨l', hl', hx1, hx2⟩ := ih b none r h
        exact ⟨l', List.mem_cons_of_mem _ hl', hx1, hx2⟩
      | some sb =>
        rw [tsBucketSpec_row b sb l ls hm] at h
        rcases List.mem_append.mp h with h | h
        · by_cases hbe : sb = b
          · rw [if_pos hbe] at h
            cases hrow : tsRowParse l with
            | none =>
              rw [hrow] at h
              simp at h
            | some rec =>
              rw [hrow] at h
              simp at h
              subst h
              exact ⟨l, List.mem_cons_self _ _, hm, hrow⟩
          · rw [if_neg hbe] at h
            simp at h
        · obtain ⟨l', hl', hx1, hx2⟩ := ih b (some sb) r h
          exact ⟨l', List.mem_cons_of_mem _ hl', hx1, hx2⟩


/-! Additional helper lemmas for the claim theorems. -/

theorem goBucketSpec_no_pkg :
    ∀ (ls : List LC) (b : LC),
      (∀ l, l ∈ ls → ("pkg:".data).isPrefixOf (pyStrip l) = false) →
      goBucketSpec b [] ls = [] := by
  intro ls
  induction ls with
  | nil => intro b h; simp [goBucketSpec]
  | cons l ls ih =>
    intro b h
    rw [goBucketSpec_cons]
    have hp : ¬ (("pkg:".data).isPrefixOf (pyStrip l) = true) := by
      rw [h l (List.mem_cons_self _ _)]
      simp
    rw [if_neg hp]
    cases hbm : benchMatch (pyStrip l) with
    | none =>
      simp only [hbm]
      exact ih b (fun l' hl' => h l' (List.mem_cons_of_mem _ hl'))
    | some r =>
      simp only [hbm, show routeOf [] = none from by decide]
      simp [ih b (fun l' hl' => h l' (List.mem_cons_of_mem _ hl'))]

theorem goRow_cells (r : GoRec) :
    goRow r = rowOfCells [r.name, r.ns_op, r.b_op, r.allocs] := by
  simp [goRow, rowOfCells, joinSep, List.append_assoc]

theorem tsRow_cells (r : TsRec) :
    tsRow r = rowOfCells [r.name, r.hz, r.mean_ms] := by
  simp [tsRow, rowOfCells, joinSep, List.append_assoc]

theorem routeOf_e2ee (pkg : LC) :
    routeOf pkg = some ("e2ee".data) ↔ ("/crypto/e2ee".data).isSuffixOf pkg = true := by
  constructor
  · intro h
    by_cases he : ("/crypto/e2ee".data).isSuffixOf pkg = true
    · exact he
    · exfalso
      by_cases ht : ("/tunnel/server".data).isSuffixOf pkg = true
      · rw [show routeOf pkg = some ("tunnel".data) from by simp [routeOf, he, ht]] at h
        exact absurd (Option.some.inj h) (by decide)
      · rw [show routeOf pkg = none from by simp [routeOf, he, ht]] at h
        exact Option.noConfusion h
  · intro he
    simp [routeOf, he]

theorem routeOf_tunnel (pkg : LC) :
    routeOf pkg = some ("tunnel".data) ↔
      (("/tunnel/server".data).isSuffixOf pkg = true ∧
       ("/crypto/e2ee".data).isSuffixOf pkg = false) := by
  constructor
  · intro h
    by_cases he : ("/crypto/e2ee".data).isSuffixOf pkg = true
    · rw [show routeOf pkg = some ("e2ee".data) from by simp [routeOf, he]] at h
      exact absurd (Option.some.inj h) (by decide)
    · by_cases ht : ("/tunnel/server".data).isSuffixOf pkg = true
      · refine ⟨ht, ?_⟩
        cases hx : ("/crypto/e2ee".data).isSuffixOf pkg
        · rfl
        · exact absurd hx he
      · rw [show routeOf pkg = none from by simp [routeOf, he, ht]] at h
        exact Option.noConfusion h
  · intro hh
    obtain ⟨ht, he⟩ := hh
    have he' : ¬ (("/crypto/e2ee".data).isSuffixOf pkg = true) := by simp [he]
    simp [routeOf, he', ht]

/-! The claim theorems. -/

/-- C1 (counterexample): the claim as stated is false.  The current package
`example.com/util/e2ee` has trailing path segment `e2ee` (it ends in
`/e2ee`), and the following line matches the five-field record pattern, yet
`parse_go` appends the record to no bucket: the code demands the two-segment
suffix `/crypto/e2ee`, not any package ending in `e2ee`. -/
theorem C1_counterexample :
    (("/e2ee".data).isSuffixOf ("example.com/util/e2ee".data) = true) ∧
    benchMatch (pyStrip ("BenchmarkFoo 100 2.0 ns/op 3 B/op 4 allocs/op".data)) ≠ none ∧
    parseGo [("pkg: example.com/util/e2ee".data),
             ("BenchmarkFoo 100 2.0 ns/op 3 B/op 4 allocs/op".data)] =
      some [("e2ee".data, []), ("tunnel".data, [])] := by
  refine ⟨by decide, by decide, by decide⟩

/-- C1 (amended): in `parse_go` every line matching the five-field record
pattern is routed by the current package's suffix — `/crypto/e2ee` to the
e2ee bucket, otherwise `/tunnel/server` to the tunnel bucket — and a record
whose current package matches neither suffix is appended to no bucket; each
bucket holds exactly the records so routed to it, in input order. -/
theorem C1_amended_routing (lines : List LC) :
    ∃ d, parseGo lines = some d ∧
      (∀ b, dget b d [] = goBucketSpec b [] lines) ∧
      (∀ pkg,
        (routeOf pkg = some ("e2ee".data) ↔ ("/crypto/e2ee".data).isSuffixOf pkg = true) ∧
        (routeOf pkg = some ("tunnel".data) ↔
          (("/tunnel/server".data).isSuffixOf pkg = true ∧
           ("/crypto/e2ee".data).isSuffixOf pkg = false))) := by
  obtain ⟨d, hg, -, hb⟩ := parseGo_spec lines
  exact ⟨d, hg, hb, fun pkg => ⟨routeOf_e2ee pkg, routeOf_tunnel pkg⟩⟩

/-- C2: on a native log whose lines are `pkg: example.com/crypto/e2ee` and
`BenchmarkSeal 1000000 52.3 ns/op 16 B/op 1 allocs/op`, the e2ee table has
exactly the one data row `| BenchmarkSeal | 52.3 | 16 | 1 |` and the tunnel
table has zero data rows. -/
theorem C2_end_to_end :
    (parseGo [("pkg: example.com/crypto/e2ee".data),
              ("BenchmarkSeal 1000000 52.3 ns/op 16 B/op 1 allocs/op".data)]).bind
        (fun d => goTableRows d ("e2ee".data)) =
      some [("| BenchmarkSeal | 52.3 | 16 | 1 |".data)] ∧
    (parseGo [("pkg: example.com/crypto/e2ee".data),
              ("BenchmarkSeal 1000000 52.3 ns/op 16 B/op 1 allocs/op".data)]).bind
        (fun d => goTableRows d ("tunnel".data)) = some [] := by
  refine ⟨by decide, by decide⟩

/-- C3 (counterexample): the claim as stated is false for the summary table.
With `attempts = 1234567` (integer-like) and `success_rate = 1` (ratio), the
rendered summary cells are the bare `str` values `1234567` and `1`, not the
thousands-separated `1,234,567` nor the fixed-precision `1.000000`. -/
theorem C3_counterexample :
    summaryRows [("attempts".data, (1234567 : Int)), ("success_rate".data, (1 : Int))] =
      [("| attempts | 1234567 |".data), ("| success | 0 |".data), ("| failure | 0 |".data),
       ("| success_rate | 1 |".data), ("| duration_seconds | 0.0000 |".data),
       ("| peak_conn_per_sec | 0 |".data), ("| active_peak | 0 |".data)] ∧
    fmtInt 1234567 = ("1,234,567".data) ∧
    ("| attempts | 1234567 |".data) ≠ ("| attempts | ".data) ++ fmtInt 1234567 ++ (" |".data) ∧
    fmtFloat 1 6 = ("1.000000".data) ∧
    ("| success_rate | 1 |".data) ≠ ("| success_rate | ".data) ++ fmtFloat 1 6 ++ (" |".data) := by
  refine ⟨by decide, by decide, by decide, by decide, by decide⟩

/-- C3 (amended): thousands separators are applied to the four integer
counters of the resources table; fixed 6-decimal precision to all six
duration statistics of every latency row; 4-decimal precision to the
summary's `duration_seconds`; the remaining six summary fields (`attempts`,
`success`, `failure`, `success_rate`, `peak_conn_per_sec`, `active_peak`)
are interpolated verbatim (Python `str`) without separator or precision
formatting. -/
theorem C3_amended_formats (s r : SubDoc) (lat : List (LC × SubDoc)) :
    (∀ row, row ∈ resourcesRows r →
      ∃ k, row = ("| ".data) ++ k ++ (" | ".data) ++ fmtInt (dget k r 0) ++ (" |".data)) ∧
    (∀ row, row ∈ latencyRows lat →
      ∃ st v1 v2 v3 v4 v5 v6, st ∈ latencyStages ∧
        row = rowOfCells [st, fmtFloat v1 6, fmtFloat v2 6, fmtFloat v3 6,
                          fmtFloat v4 6, fmtFloat v5 6, fmtFloat v6 6]) ∧
    (summaryRows s).getD 4 [] =
      ("| duration_seconds | ".data) ++ fmtFloat (dget ("duration_seconds".data) s 0) 4
        ++ (" |".data) ∧
    (summaryRows s).getD 0 [] =
      ("| attempts | ".data) ++ intStr (dget ("attempts".data) s 0) ++ (" |".data) ∧
    (summaryRows s).getD 1 [] =
      ("| success | ".data) ++ intStr (dget ("success".data) s 0) ++ (" |".data) ∧
    (summaryRows s).getD 2 [] =
      ("| failure | ".data) ++ intStr (dget ("failure".data) s 0) ++ (" |".data) ∧
    (summaryRows s).getD 3 [] =
      ("| success_rate | ".data) ++ intStr (dget ("success_rate".data) s 0) ++ (" |".data) ∧
    (summaryRows s).getD 5 [] =
      ("| peak_conn_per_sec | ".data) ++ intStr (dget ("peak_conn_per_sec".data) s 0)
        ++ (" |".data) ∧
    (summaryRows s).getD 6 [] =
      ("| active_peak | ".data) ++ intStr (dget ("active_peak".data) s 0) ++ (" |".data) := by
  refine ⟨?_, ?_, rfl, rfl, rfl, rfl, rfl, rfl, rfl⟩
  · intro row hrow
    simp only [resourcesRows, List.mem_cons, List.not_mem_nil, or_false] at hrow
    rcases hrow with h | h | h | h
    · exact ⟨"max_heap_alloc_bytes".data, h⟩
    · exact ⟨"max_heap_inuse_bytes".data, h⟩
    · exact ⟨"max_sys_bytes".data, h⟩
    · exact ⟨"max_goroutines".data, h⟩
  · intro row hrow
    simp only [latencyRows, List.mem_map] at hrow
    obtain ⟨st, hst, hrow⟩ := hrow
    refine ⟨st, dget ("p50_ms".data) (dget st lat []) 0, dget ("p95_ms".data) (dget st lat []) 0,
            dget ("p99_ms".data) (dget st lat []) 0, dget ("mean_ms".data) (dget st lat []) 0,
            dget ("min_ms".data) (dget st lat []) 0, dget ("max_ms".data) (dget st lat []) 0,
            hst, ?_⟩
    rw [← hrow]
    simp [latencyRow, rowOfCells, joinSep, List.append_assoc]

/-- C3 (witness): instantiates the amended claim on a concrete resources
document with `max_goroutines = 7000`, whose rendered row is
`| max_goroutines | 7,000 |`. -/
theorem C3_amended_formats_witness :
    ∃ k, ("| max_goroutines | 7,000 |".data) =
      ("| ".data) ++ k ++ (" | ".data)
        ++ fmtInt (dget k [("max_goroutines".data, (7000 : Int))] 0) ++ (" |".data) :=
  (C3_amended_formats [] [("max_goroutines".data, (7000 : Int))] []).1
    ("| max_goroutines | 7,000 |".data) (by decide)

/-- C4: every record either parser puts in a bucket comes verbatim from a
matching input line, and its rendered table row is exactly the pipe-separated
cells holding the captured strings unchanged. -/
theorem C4_roundtrip (lines : List LC) (gd : Dict GoRec) (td : Dict TsRec)
    (hgo : parseGo lines = some gd) (hts : parseTs lines = some td) :
    (∀ b r, r ∈ dget b gd [] →
      (∃ l, l ∈ lines ∧ benchMatch (pyStrip l) = some r) ∧
      goRow r = rowOfCells [r.name, r.ns_op, r.b_op, r.allocs]) ∧
    (∀ b r, r ∈ dget b td [] →
      (∃ l, l ∈ lines ∧ tsMarker l = none ∧ tsRowParse l = some r) ∧
      tsRow r = rowOfCells [r.name, r.hz, r.mean_ms]) := by
  obtain ⟨gd', hg', -, hgb⟩ := parseGo_spec lines
  obtain ⟨td', ht', -, htb⟩ := parseTs_spec lines
  rw [hgo] at hg'
  rw [hts] at ht'
  cases Option.some.inj hg'
  cases Option.some.inj ht'
  constructor
  · intro b r hr
    rw [hgb b] at hr
    exact ⟨goBucketSpec_src lines b [] r hr, goRow_cells r⟩
  · intro b r hr
    rw [htb b] at hr
    exact ⟨tsBucketSpec_src lines b none r hr, tsRow_cells r⟩

/-- C4 (witness): instantiates the round-trip claim on a two-line native log
whose single record is `BenchmarkX 5 1.5 ns/op 2 B/op 3 allocs/op`. -/
theorem C4_roundtrip_witness :
    (∃ l, l ∈ [("pkg: a/crypto/e2ee".data),
               ("BenchmarkX 5 1.5 ns/op 2 B/op 3 allocs/op".data)] ∧
      benchMatch (pyStrip l) =
        some ⟨"BenchmarkX".data, "1.5".data, "2".data, "3".data⟩) ∧
    goRow ⟨"BenchmarkX".data, "1.5".data, "2".data, "3".data⟩ =
      rowOfCells [(⟨"BenchmarkX".data, "1.5".data, "2".data, "3".data⟩ : GoRec).name,
                  (⟨"BenchmarkX".data, "1.5".data, "2".data, "3".data⟩ : GoRec).ns_op,
                  (⟨"BenchmarkX".data, "1.5".data, "2".data, "3".data⟩ : GoRec).b_op,
                  (⟨"BenchmarkX".data, "1.5".data, "2".data, "3".data⟩ : GoRec).allocs] :=
  (C4_roundtrip [("pkg: a/crypto/e2ee".data),
                 ("BenchmarkX 5 1.5 ns/op 2 B/op 3 allocs/op".data)]
      [("e2ee".data, [⟨"BenchmarkX".data, "1.5".data, "2".data, "3".data⟩]),
       ("tunnel".data, [])] tsInit (by decide) (by decide)).1
    ("e2ee".data) ⟨"BenchmarkX".data, "1.5".data, "2".data, "3".data⟩ (by decide)

/-- C5: both parsers return normally on every input — every modelled
fallible operation (dict indexing, list indexing) succeeds, and malformed
lines are skipped rather than failing the parse. -/
theorem C5_never_raises (lines : List LC) :
    (parseGo lines).isSome = true ∧ (parseTs lines).isSome = true := by
  obtain ⟨gd, hg, -, -⟩ := parseGo_spec lines
  obtain ⟨td, ht, -, -⟩ := parseTs_spec lines
  refine ⟨?_, ?_⟩
  · rw [hg]
    rfl
  · rw [ht]
    rfl

/-- C6: a native log with no package-declaration line (no line whose
stripped form starts with `pkg:`) parses to two empty buckets, no matter how
many lines match the record pattern. -/
theorem C6_no_pkg_empty (lines : List LC)
    (h : ∀ l, l ∈ lines → ("pkg:".data).isPrefixOf (pyStrip l) = false) :
    ∃ d, parseGo lines = some d ∧
      alookup ("e2ee".data) d = some [] ∧ alookup ("tunnel".data) d = some [] := by
  obtain ⟨d, hg, hk, hb⟩ := parseGo_spec lines
  have hm1 : ("e2ee".data) ∈ keysOf d := by rw [hk]; decide
  have hm2 : ("tunnel".data) ∈ keysOf d := by rw [hk]; decide
  refine ⟨d, hg, ?_, ?_⟩
  · rw [alookup_eq_dget ("e2ee".data) d hm1, hb, goBucketSpec_no_pkg lines ("e2ee".data) h]
  · rw [alookup_eq_dget ("tunnel".data) d hm2, hb, goBucketSpec_no_pkg lines ("tunnel".data) h]

/-- C6 (witness): a one-line log holding only a pattern-matching record line
and no package declaration yields two empty buckets. -/
theorem C6_no_pkg_empty_witness :
    ∃ d, parseGo [("BenchmarkFoo 100 2.0 ns/op 3 B/op 4 allocs/op".data)] = some d ∧
      alookup ("e2ee".data) d = some [] ∧ alookup ("tunnel".data) d = some [] :=
  C6_no_pkg_empty [("BenchmarkFoo 100 2.0 ns/op 3 B/op 4 allocs/op".data)] (by decide)

/-- C7: each script bucket equals the section-directed specification: a
marker line sets the current section, qualifying bullet rows are appended to
the currently-set section's bucket in encounter order (so switching markers
redirects subsequent rows), and rows before the first marker contribute no
record. -/
theorem C7_section_redirect (lines : List LC) :
    ∃ d, parseTs lines = some d ∧
      alookup ("handshake".data) d = some (tsBucketSpec ("handshake".data) none lines) ∧
      alookup ("record".data) d = some (tsBucketSpec ("record".data) none lines) ∧
      alookup ("yamux".data) d = some (tsBucketSpec ("yamux".data) none lines) := by
  obtain ⟨d, ht, hk, hb⟩ := parseTs_spec lines
  have hm1 : ("handshake".data) ∈ keysOf d := by rw [hk]; decide
  have hm2 : ("record".data) ∈ keysOf d := by rw [hk]; decide
  have hm3 : ("yamux".data) ∈ keysOf d := by rw [hk]; decide
  refine ⟨d, ht, ?_, ?_, ?_⟩
  · rw [alookup_eq_dget ("handshake".data) d hm1, hb]
  · rw [alookup_eq_dget ("record".data) d hm2, hb]
  · rw [alookup_eq_dget ("yamux".data) d hm3, hb]

/-- C8: when the load-generator document lacks the `resources` key entirely,
the resources table renders exactly its four fixed rows, each with value
`0`, with every lookup defaulting rather than failing. -/
theorem C8_default_resources (lg : List (LC × SubDoc))
    (h : alookup ("resources".data) lg = none) :
    resourcesRows (lgResources lg) =
      [("| max_heap_alloc_bytes | 0 |".data), ("| max_heap_inuse_bytes | 0 |".data),
       ("| max_sys_bytes | 0 |".data), ("| max_goroutines | 0 |".data)] := by
  have hres : lgResources lg = [] := by
    simp [lgResources, dget, h]
  rw [hres]
  decide

/-- C8 (witness): a document with only a `summary` key renders the all-zero
resources table. -/
theorem C8_default_resources_witness :
    resourcesRows (lgResources [("summary".data, ([] : SubDoc))]) =
      [("| max_heap_alloc_bytes | 0 |".data), ("| max_heap_inuse_bytes | 0 |".data),
       ("| max_sys_bytes | 0 |".data), ("| max_goroutines | 0 |".data)] :=
  C8_default_resources [("summary".data, ([] : SubDoc))] (by decide)

/-- C9: on every input, `parse_go` returns a dict whose keys are exactly
`e2ee, tunnel` and `parse_ts` one whose keys are exactly
`handshake, record, yamux`, in fixed order; every bucket is present (lookup
succeeds) and holds exactly the records of its specification, in first-seen
input order — a bucket with no matching input is the empty list, never an
absent key. -/
theorem C9_fixed_buckets (lines : List LC) :
    ∃ gd td, parseGo lines = some gd ∧ parseTs lines = some td ∧
      keysOf gd = ["e2ee".data, "tunnel".data] ∧
      keysOf td = ["handshake".data, "record".data, "yamux".data] ∧
      alookup ("e2ee".data) gd = some (goBucketSpec ("e2ee".data) [] lines) ∧
      alookup ("tunnel".data) gd = some (goBucketSpec ("tunnel".data) [] lines) ∧
      alookup ("handshake".data) td = some (tsBucketSpec ("handshake".data) none lines) ∧
      alookup ("record".data) td = some (tsBucketSpec ("record".data) none lines) ∧
      alookup ("yamux".data) td = some (tsBucketSpec ("yamux".data) none lines) := by
  obtain ⟨gd, hg, hgk, hgb⟩ := parseGo_spec lines
  obtain ⟨td, ht, htk, htb⟩ := parseTs_spec lines
  refine ⟨gd, td, hg, ht, hgk, htk, ?_, ?_, ?_, ?_, ?_⟩
  · rw [alookup_eq_dget ("e2ee".data) gd (by rw [hgk]; decide), hgb]
  · rw [alookup_eq_dget ("tunnel".data) gd (by rw [hgk]; decide), hgb]
  · rw [alookup_eq_dget ("handshake".data) td (by rw [htk]; decide), htb]
  · rw [alookup_eq_dget ("record".data) td (by rw [htk]; decide), htb]
  · rw [alookup_eq_dget ("yamux".data) td (by rw [htk]; decide), htb]

/-- C10: a line containing a section-marker substring only switches the
current section and leaves every bucket unchanged, whatever the current
state — marker detection runs on the raw untrimmed line and short-circuits
all record-row processing for that line. -/
theorem C10_marker_short_circuit (sec : Option LC) (d : Dict TsRec) (line m : LC)
    (h : tsMarker line = some m) :
    tsLineStep sec d line = some (some m, d) := by
  simp [tsLineStep, h]

/-- C10 (witness): the marker line `· > e2ee handshake a b c d` — which,
after trimming, begins with the bullet character and splits into at least
five fields — still produces no record: it only switches the section. -/
theorem C10_marker_short_circuit_witness :
    tsMarker ("· > e2ee handshake a b c d".data) = some ("handshake".data) ∧
    ("·".data).isPrefixOf (pyStrip ("· > e2ee handshake a b c d".data)) = true ∧
    5 ≤ (pySplit ((pyStrip ("· > e2ee handshake a b c d".data)).filter
          (fun c => c ≠ '·'))).length ∧
    tsLineStep (some ("record".data)) tsInit ("· > e2ee handshake a b c d".data) =
      some (some ("handshake".data), tsInit) :=
  ⟨by decide, by decide, by decide,
   C10_marker_short_circuit (some ("record".data)) tsInit
     ("· > e2ee handshake a b c d".data) ("handshake".data) (by decide)⟩

end BenchReport
